/-
Verification of the wordler bot's text-extraction layer and stats engine.

This file gives a shallow embedding, in Lean 4, of the core of the
repository ragunawan/wordler:

  * src/wordler_bot/parser.py  — parse_wordle_message, parse_daily_summary
  * src/wordler_bot/stats.py   — StatsManager.record_result, leaderboard,
                                 _make_summary, _blank_stats, load
  * the leaderboard-snapshot accessors referenced by the test-suite

and proves (or refutes) the specification claims about them.

Modelling conventions:
  * Python strings are modelled as Lean `String` / `List Char`, restricted to
    the ASCII behaviour of `str.strip`, `str.splitlines` (newline `\n` only),
    `str.lower` and `\s`/`\d` regex classes.  All concrete inputs exercised
    here are ASCII, where the model is exact.
  * Python floats (`wins / games_played`, `total_attempts / wins`) are
    modelled as exact rationals `ℚ`.
  * Python dicts are modelled as insertion-ordered association lists, and
    Python sets as lists with membership (insertion deduplicated).
  * Fallible steps (JSON decoding, the persist step of `record_result`)
    are modelled with `Option` / `Except`.
-/
import Mathlib

namespace Wordler

/-! ### Character and string helpers (Python `\s`, `\d`, strip, splitlines, lower) -/

/-- Python regex `\s` / `str.strip` whitespace, ASCII fragment. -/
def isPyWs (c : Char) : Bool :=
  c == ' ' || c == '\t' || c == '\n' || c == '\r' || c == '\x0b' || c == '\x0c'

/-- Python `str.strip()` on a character list. -/
def pyStrip (cs : List Char) : List Char :=
  ((cs.dropWhile isPyWs).reverse.dropWhile isPyWs).reverse

/-- Python `str.rstrip()` on a character list. -/
def pyRstrip (cs : List Char) : List Char :=
  (cs.reverse.dropWhile isPyWs).reverse

/-- Split on `'\n'`, keeping a trailing empty piece for a trailing newline. -/
def splitNlRaw : List Char → List (List Char)
  | [] => [[]]
  | c :: rest =>
    if c = '\n' then [] :: splitNlRaw rest
    else
      match splitNlRaw rest with
      | [] => [[c]]
      | l :: ls => (c :: l) :: ls

/-- Python `str.splitlines()` (newline-only model): no trailing empty line,
and the empty string yields no lines. -/
def pySplitlines (cs : List Char) : List (List Char) :=
  let ps := splitNlRaw cs
  if ps.getLast? = some ([] : List Char) then ps.dropLast else ps

/-- Numeric value of a decimal digit character. -/
def digitVal (c : Char) : Nat := c.toNat - 48

/-- Value of a run of decimal digits, as `int()` reads it. -/
def digitsToNat (ds : List Char) : Nat :=
  ds.foldl (fun n c => 10 * n + digitVal c) 0

/-- Python `str.lower`, ASCII fragment. -/
def asciiLower (c : Char) : Char :=
  if 'A' ≤ c ∧ c ≤ 'Z' then Char.ofNat (c.toNat + 32) else c

/-- Lower-case an entire string (ASCII model of `str.lower()`). -/
def pyLowerStr (s : String) : String := String.mk (s.data.map asciiLower)

/-! ### parse_wordle_message (src/wordler_bot/parser.py, lines 35-64) -/

/-- Result of parsing one share message (`WordleResult` in parser.py). -/
structure WordleResult where
  puzzleNumber : Option Nat
  success : Bool
  attempts : Option Nat
  hardMode : Bool
  board : List String
deriving DecidableEq, Repr

/-- The regex character class `[0-6Xx]` of `WORDLE_REGEX` and
`SUMMARY_LINE_REGEX`. -/
def isScoreChar (c : Char) : Bool :=
  c == '0' || c == '1' || c == '2' || c == '3' || c == '4' || c == '5' || c == '6' ||
    c == 'X' || c == 'x'

/-- Try `WORDLE_REGEX` (pattern `Wordle\s+(\d+)\s+([0-6Xx])/6(\*?)` without
the `^` anchor) at the start of `cs`; on success return the puzzle number,
the raw score character and the hard-mode flag.  Greedy matching of `\s+`
and `\d+` is exact here because the whitespace and digit classes are
disjoint, so the regex never backtracks across them. -/
def matchWordleAt (cs : List Char) : Option (Nat × Char × Bool) :=
  if ['W', 'o', 'r', 'd', 'l', 'e'].isPrefixOf cs then
    let r1 := cs.drop 6
    let ws1 := r1.takeWhile isPyWs
    let r2 := r1.dropWhile isPyWs
    if ws1.isEmpty then none
    else
      let ds := r2.takeWhile Char.isDigit
      let r3 := r2.dropWhile Char.isDigit
      if ds.isEmpty then none
      else
        let ws2 := r3.takeWhile isPyWs
        let r4 := r3.dropWhile isPyWs
        if ws2.isEmpty then none
        else
          match r4 with
          | sc :: s1 :: s2 :: rest =>
            if isScoreChar sc && s1 == '/' && s2 == '6' then
              some (digitsToNat ds, sc, match rest with | '*' :: _ => true | _ => false)
            else none
          | _ => none
  else none

/-- All suffixes of `cs` that start just after a newline (the non-initial
positions where a `re.MULTILINE` `^` can match). -/
def afterNewlines : List Char → List (List Char)
  | [] => []
  | c :: rest =>
    if c = '\n' then rest :: afterNewlines rest else afterNewlines rest

/-- Model of `WORDLE_REGEX.search(content)`: try the anchored pattern at
every line-start position, leftmost position first. -/
def searchWordle (cs : List Char) : Option (Nat × Char × Bool) :=
  (cs :: afterNewlines cs).findSome? matchWordleAt

/-- Model of `parse_wordle_message` (parser.py lines 35-64).  The board is
accumulated exactly as the source loop does: iterate `splitlines()[1:]`,
skip lines whose `strip()` is empty, append `line.rstrip()`, then slice
to the first six rows. -/
def parseWordleMessage (content : String) : Option WordleResult :=
  let cs := content.data
  if cs.isEmpty then none
  else
    match searchWordle cs with
    | none => none
    | some (puzzle, sc, hard) =>
      let success := !(sc == 'X' || sc == 'x')
      let attempts := if success then some (digitVal sc) else none
      let boardLines :=
        ((pySplitlines cs).drop 1).foldl
          (fun acc line => if (pyStrip line).isEmpty then acc else acc ++ [pyRstrip line]) []
      some ⟨some puzzle, success, attempts, hard, (boardLines.take 6).map (fun l => String.mk l)⟩

/-! ### parse_daily_summary (src/wordler_bot/parser.py, lines 67-114) -/

/-- One parsed entry of a daily summary (`DailySummaryEntry` in parser.py). -/
structure DailySummaryEntry where
  userId : Option Nat
  handle : Option String
  success : Bool
  attempts : Option Nat
deriving DecidableEq, Repr

/-- Model of `SUMMARY_LINE_REGEX.search(line)` with pattern
`([0-6Xx])/6:\s*(.+)`: find the leftmost position carrying a score
character followed by `/6:` and at least one further character, and
return the score character together with the text after the colon.
(The `\s*`/`.+` split only left-trims the body, which the source then
strips anyway, so the raw tail is returned here and stripped by the
caller exactly as `match.group("body").strip()` does.) -/
def findScoreTail : List Char → Option (Char × List Char)
  | [] => none
  | c :: rest =>
    match rest with
    | '/' :: '6' :: ':' :: tail =>
      if isScoreChar c && !tail.isEmpty then some (c, tail)
      else findScoreTail rest
    | _ => findScoreTail rest

/-- Skip the optional `!` of a mention token (`<@!?...>`). -/
def skipBang (cs : List Char) : List Char :=
  match cs with
  | c :: r => if c = '!' then r else c :: r
  | [] => []

/-- Try `MENTION_REGEX` (pattern `<@!?(\d+)>`) at the start of `cs`;
return the numeric id and the remainder after the closing bracket. -/
def mentionAt (cs : List Char) : Option (Nat × List Char) :=
  match cs with
  | a :: b :: rest =>
    if a = '<' ∧ b = '@' then
      match (skipBang rest).takeWhile Char.isDigit, (skipBang rest).dropWhile Char.isDigit with
      | [], _ => none
      | ds@(_ :: _), '>' :: tail => some (digitsToNat ds, tail)
      | _, _ => none
    else none
  | _ => none

/-- Model of `MENTION_REGEX.findall(body)`: scan left to right, emit each
mention id, and continue after the end of each match. -/
def findMentions (cs : List Char) : List Nat :=
  match cs with
  | [] => []
  | c :: rest =>
    match h : mentionAt (c :: rest) with
    | some (n, tail) => n :: findMentions tail
    | none => findMentions rest
termination_by cs.length
decreasing_by
  · rcases rest with _ | ⟨b, rest2⟩
    · exact absurd h (by simp [mentionAt])
    · rw [mentionAt] at h
      split at h
      · have h2 := (List.dropWhile_sublist (l := skipBang rest2) Char.isDigit).length_le
        have h3 : (skipBang rest2).length ≤ rest2.length := by
          rcases rest2 with _ | ⟨c2, r2⟩
          · simp [skipBang]
          · rw [skipBang]
            split
            · simp
            · simp
        split at h
        · exact absurd h (by simp)
        next ds d dtl hds hr3 =>
          cases h
          rw [hr3] at h2
          simp only [List.length_cons] at h2 ⊢
          omega
        · exact absurd h (by simp)
      · exact absurd h (by simp)
  · simp

/-- Model of `MENTION_REGEX.sub(" ", body)`: replace every mention match
by a single space. -/
def stripMentions (cs : List Char) : List Char :=
  match cs with
  | [] => []
  | c :: rest =>
    match h : mentionAt (c :: rest) with
    | some (_, tail) => ' ' :: stripMentions tail
    | none => c :: stripMentions rest
termination_by cs.length
decreasing_by
  · rcases rest with _ | ⟨b, rest2⟩
    · exact absurd h (by simp [mentionAt])
    · rw [mentionAt] at h
      split at h
      · have h2 := (List.dropWhile_sublist (l := skipBang rest2) Char.isDigit).length_le
        have h3 : (skipBang rest2).length ≤ rest2.length := by
          rcases rest2 with _ | ⟨c2, r2⟩
          · simp [skipBang]
          · rw [skipBang]
            split
            · simp
            · simp
        split at h
        · exact absurd h (by simp)
        next ds d dtl hds hr3 =>
          cases h
          rw [hr3] at h2
          simp only [List.length_cons] at h2 ⊢
          omega
        · exact absurd h (by simp)
      · exact absurd h (by simp)
  · simp

/-- The regex class `[A-Za-z0-9_.-]` of `PLAIN_HANDLE_REGEX`. -/
def isHandleChar (c : Char) : Bool :=
  c.isAlpha || c.isDigit || c == '_' || c == '.' || c == '-'

/-- Try `PLAIN_HANDLE_REGEX` (pattern `@([A-Za-z0-9_.-]+)`) at the start of
`cs`; return the handle characters and the remainder. -/
def handleAt (cs : List Char) : Option (List Char × List Char) :=
  match cs with
  | a :: rest =>
    if a = '@' then
      if (rest.takeWhile isHandleChar).isEmpty then none
      else some (rest.takeWhile isHandleChar, rest.dropWhile isHandleChar)
    else none
  | _ => none

/-- Model of `PLAIN_HANDLE_REGEX.finditer(stripped_body)`: scan left to
right, emit each handle, and continue after the end of each match. -/
def findHandles (cs : List Char) : List (List Char) :=
  match cs with
  | [] => []
  | c :: rest =>
    match h : handleAt (c :: rest) with
    | some (hd, r) => hd :: findHandles r
    | none => findHandles rest
termination_by cs.length
decreasing_by
  · rw [handleAt] at h
    split at h
    · split at h
      · exact absurd h (by simp)
      · cases h
        have := (List.dropWhile_sublist (l := rest) isHandleChar).length_le
        simp only [List.length_cons]
        omega
    · exact absurd h (by simp)
  · simp

/-- Dedup keys of `parse_daily_summary`: `SeenKey.idKey n` models the
string key `"id:{user_id}"` and `SeenKey.handleKey s` models
`"handle:{handle.lower()}"` (the two f-string prefixes make the
namespaces disjoint, which the two constructors capture directly). -/
inductive SeenKey where
  | idKey (n : Nat)
  | handleKey (s : String)
deriving DecidableEq, Repr

/-- Process the mention ids of one line against the running seen-set,
as the first inner loop of `parse_daily_summary` does. -/
def processMentions (success : Bool) (attempts : Option Nat) :
    List Nat → List SeenKey → List DailySummaryEntry × List SeenKey
  | [], seen => ([], seen)
  | n :: ns, seen =>
    if SeenKey.idKey n ∈ seen then processMentions success attempts ns seen
    else
      let out := processMentions success attempts ns (SeenKey.idKey n :: seen)
      (⟨some n, none, success, attempts⟩ :: out.1, out.2)

/-- Process the plain handles of one line against the running seen-set,
as the second inner loop of `parse_daily_summary` does (including the
source's redundant `handle.strip()` / emptiness check). -/
def processHandles (success : Bool) (attempts : Option Nat) :
    List (List Char) → List SeenKey → List DailySummaryEntry × List SeenKey
  | [], seen => ([], seen)
  | h :: hs, seen =>
    let handle := pyStrip h
    if handle.isEmpty then processHandles success attempts hs seen
    else
      let key := SeenKey.handleKey (String.mk (handle.map asciiLower))
      if key ∈ seen then processHandles success attempts hs seen
      else
        let out := processHandles success attempts hs (key :: seen)
        (⟨none, some (String.mk handle), success, attempts⟩ :: out.1, out.2)

/-- Process one line of the summary message: match the score pattern,
then mentions first, then plain handles on the mention-stripped body. -/
def processLine (seen : List SeenKey) (line : List Char) :
    List DailySummaryEntry × List SeenKey :=
  match findScoreTail line with
  | none => ([], seen)
  | some (c, tail) =>
    let body := pyStrip tail
    let success := !(c == 'X' || c == 'x')
    let attempts := if success then some (digitVal c) else none
    let o1 := processMentions success attempts (findMentions body) seen
    let o2 := processHandles success attempts (findHandles (stripMentions body)) o1.2
    (o1.1 ++ o2.1, o2.2)

/-- Fold the per-line processing over all lines, threading the seen-set. -/
def parseDailySummaryAux (seen : List SeenKey) :
    List (List Char) → List DailySummaryEntry
  | [] => []
  | line :: rest =>
    let o := processLine seen line
    o.1 ++ parseDailySummaryAux o.2 rest

/-- Model of `parse_daily_summary` (parser.py lines 67-114). -/
def parseDailySummary (content : String) : List DailySummaryEntry :=
  if content.data.isEmpty then []
  else parseDailySummaryAux [] (pySplitlines content.data)

/-! ### StatsManager state and record_result (src/wordler_bot/stats.py, lines 28-122, 181-192) -/

/-- The nested `last_result` snapshot stored by `record_result`. -/
structure LastResult where
  puzzleNumber : Option Nat
  success : Bool
  attempts : Option Nat
  hardMode : Bool
  recordedAt : String
deriving DecidableEq, Repr

/-- One per-user aggregate dict.  `guessDistribution` is an
insertion-ordered association list from bucket number to count, modelling
the Python dict with keys `str(i)`. -/
structure UserStats where
  displayName : String
  gamesPlayed : Nat
  wins : Nat
  losses : Nat
  totalAttempts : Nat
  guessDistribution : List (Nat × Nat)
  lastPuzzle : Option Nat
  lastResult : Option LastResult
deriving DecidableEq, Repr

/-- Model of `StatsManager._blank_stats`. -/
def blankStats (displayName : String) : UserStats :=
  ⟨displayName, 0, 0, 0, 0, [(1, 0), (2, 0), (3, 0), (4, 0), (5, 0), (6, 0)], none, none⟩

/-- Lookup in an association list (first binding wins, like a dict). -/
def alookup {β : Type} (k : String) : List (String × β) → Option β
  | [] => none
  | p :: rest => if p.1 = k then some p.2 else alookup k rest

/-- Update or append a binding, keeping dict insertion order
(`setdefault` followed by in-place mutation). -/
def aset (k : String) (v : UserStats) :
    List (String × UserStats) → List (String × UserStats)
  | [] => [(k, v)]
  | p :: rest => if p.1 = k then (k, v) :: rest else p :: aset k v rest

/-- Dict read with default 0: `guess_distribution.get(str(b), 0)`. -/
def distLookup (d : List (Nat × Nat)) (b : Nat) : Nat :=
  match d with
  | [] => 0
  | p :: rest => if p.1 = b then p.2 else distLookup rest b

/-- Model of the source's two-step bucket update:
`if bucket not in dist: dist[bucket] = 0` then `dist[bucket] += 1`. -/
def distBump (d : List (Nat × Nat)) (b : Nat) : List (Nat × Nat) :=
  if d.any (fun p => p.1 == b) then
    d.map (fun p => if p.1 = b then (p.1, p.2 + 1) else p)
  else d ++ [(b, 1)]

/-- The in-memory state of `StatsManager`: the `_stats` dict and the
`_processed_messages` set (modelled as a deduplicated list). -/
structure StoreState where
  stats : List (String × UserStats)
  processed : List String
deriving DecidableEq, Repr

/-- The duck-typed Discord user passed to `record_result`: only `.id` and
`.display_name` are read. -/
structure PyUser where
  id : Nat
  displayName : String
deriving DecidableEq, Repr

/-- Key derivation of `record_result`: `key = message_key`, and if that is
`None` and `message_id` is not, `key = str(message_id)`. -/
def deriveKey (messageId : Option Nat) (messageKey : Option String) : Option String :=
  match messageKey with
  | some k => some k
  | none => messageId.map Nat.repr

/-- Python truthiness of the optional key (`if key:`): `None` and the
empty string are falsy. -/
def keyTruthy : Option String → Bool
  | none => false
  | some k => !k.isEmpty

/-- The duplicate test `if key and key in self._processed_messages`. -/
def isDuplicate (st : StoreState) (key : Option String) : Bool :=
  match key with
  | none => false
  | some k => !k.isEmpty && decide (k ∈ st.processed)

/-- Set insertion (`self._processed_messages.add(key)`). -/
def insertSet (k : String) (l : List String) : List String :=
  if k ∈ l then l else k :: l

/-- The per-user aggregate mutation of `record_result`
(stats.py lines 87-108): refresh the display name, bump win/loss
counters, total attempts and the guess distribution, recompute
`games_played`, and replace `last_puzzle` / `last_result`.
`now` models the wall-clock timestamp `datetime.now(...).isoformat()`. -/
def updateStats (prev : UserStats) (displayName : String) (r : WordleResult)
    (now : String) : UserStats :=
  let s0 := { prev with displayName := displayName }
  let s1 :=
    if r.success then
      { s0 with
        wins := s0.wins + 1,
        totalAttempts := s0.totalAttempts + r.attempts.getD 0,
        guessDistribution := distBump s0.guessDistribution (r.attempts.getD 0) }
    else { s0 with losses := s0.losses + 1 }
  { s1 with
    gamesPlayed := s1.wins + s1.losses,
    lastPuzzle := r.puzzleNumber,
    lastResult := some ⟨r.puzzleNumber, r.success, r.attempts, r.hardMode, now⟩ }

/-- The state mutation performed by a non-duplicate `record_result` call:
fetch-or-create the aggregate under `str(user.id)`, apply `updateStats`,
and add the (truthy) key to the processed set. -/
def recordMutate (st : StoreState) (user : PyUser) (r : WordleResult)
    (key : Option String) (now : String) : StoreState :=
  let uid := Nat.repr user.id
  let prev := (alookup uid st.stats).getD (blankStats user.displayName)
  let stats2 := aset uid (updateStats prev user.displayName r now) st.stats
  let processed2 :=
    match key with
    | some k => if !k.isEmpty then insertSet k st.processed else st.processed
    | none => st.processed
  ⟨stats2, processed2⟩

/-- Model of `StatsManager.record_result` (stats.py lines 71-122) with the
persist step assumed to succeed.  Returns the recorded/duplicate flag and
the new state. -/
def recordResult (st : StoreState) (user : PyUser) (r : WordleResult)
    (messageId : Option Nat) (messageKey : Option String) (now : String) :
    Bool × StoreState :=
  let key := deriveKey messageId messageKey
  if isDuplicate st key then (false, st)
  else (true, recordMutate st user r key now)

/-- Model of `record_result` with the outcome of `_persist_locked` made
explicit: a raising persist step propagates as `Except.error` and the call
never reaches `return True` (the in-memory dicts have been mutated at that
point, but the call surfaces the exception instead of an outcome).  The
duplicate path returns before persisting. -/
def recordResultE (st : StoreState) (user : PyUser) (r : WordleResult)
    (messageId : Option Nat) (messageKey : Option String) (now : String)
    (persistOutcome : Except String Unit) : Except String (Bool × StoreState) :=
  let key := deriveKey messageId messageKey
  if isDuplicate st key then Except.ok (false, st)
  else
    match persistOutcome with
    | Except.error e => Except.error e
    | Except.ok _ => Except.ok (true, recordMutate st user r key now)

/-! ### Summaries and leaderboard (src/wordler_bot/stats.py, lines 130-168) -/

/-- Model of `UserSummary`.  `win_rate` and `average_attempts` are Python
floats; they are modelled as exact rationals. -/
structure UserSummary where
  userId : String
  displayName : String
  gamesPlayed : Nat
  wins : Nat
  losses : Nat
  winRate : ℚ
  averageAttempts : Option ℚ
  guessDistribution : List Nat
  totalAttempts : Nat
  lastPuzzle : Option Nat
deriving DecidableEq, Repr

/-- Model of `StatsManager._make_summary`. -/
def mkSummary (userId : String) (stats : UserStats) : UserSummary :=
  ⟨userId, stats.displayName, stats.gamesPlayed, stats.wins, stats.losses,
   (if stats.gamesPlayed = 0 then 0 else (stats.wins : ℚ) / stats.gamesPlayed),
   (if stats.wins = 0 then none else some ((stats.totalAttempts : ℚ) / stats.wins)),
   [1, 2, 3, 4, 5, 6].map (distLookup stats.guessDistribution),
   stats.totalAttempts, stats.lastPuzzle⟩

/-- Lower-cased display name, as the sort key's `display_name.lower()`. -/
def lowerName (s : UserSummary) : List Char := s.displayName.data.map asciiLower

/-- Lexicographic code-point comparison of character lists, as Python
compares strings. -/
def charListLE : List Char → List Char → Bool
  | [], _ => true
  | _ :: _, [] => false
  | a :: xs, b :: ys => if a = b then charListLE xs ys else decide (a < b)

/-- The second sort-key component: `average_attempts` with the source's
literal `99` sentinel for `None`. -/
def avgKey (s : UserSummary) : ℚ := s.averageAttempts.getD 99

/-- The sort order of `leaderboard` (stats.py lines 138-145): the tuple
`(-win_rate, avg-or-99, -wins, display_name.lower())` compared
lexicographically. -/
def codeLE (a b : UserSummary) : Bool :=
  if a.winRate ≠ b.winRate then decide (b.winRate < a.winRate)
  else if avgKey a ≠ avgKey b then decide (avgKey a < avgKey b)
  else if a.wins ≠ b.wins then decide (b.wins < a.wins)
  else charListLE (lowerName a) (lowerName b)

/-- The summaries of all users with nonzero `games_played`, in dict
iteration order (the eligibility filter of `leaderboard`). -/
def eligibleSummaries (st : List (String × UserStats)) : List UserSummary :=
  (st.map (fun p => mkSummary p.1 p.2)).filter (fun s => s.gamesPlayed != 0)

/-- Model of `StatsManager.leaderboard`: filter, stable-sort by the key
tuple, and truncate to `limit`. -/
def leaderboard (st : List (String × UserStats)) (limit : Nat) : List UserSummary :=
  ((eligibleSummaries st).mergeSort codeLE).take limit

/-- The claim's reading of the `average_attempts` tiebreak, strict part:
ascending among defined averages, and every defined average strictly
before "no wins" (undefined average). -/
def specAvgLT : Option ℚ → Option ℚ → Prop
  | some x, some y => x < y
  | some _, none => True
  | none, _ => False

/-- Equality at the `average_attempts` level of the claim's ordering. -/
def specAvgEq : Option ℚ → Option ℚ → Prop
  | some x, some y => x = y
  | none, none => True
  | _, _ => False

/-- The leaderboard order as the claim states it: `win_rate` descending,
then `average_attempts` ascending with "no wins" after every defined
average, then `wins` descending, then lower-cased display name
ascending. -/
def specLE (a b : UserSummary) : Prop :=
  b.winRate < a.winRate ∨
    (a.winRate = b.winRate ∧
      (specAvgLT a.averageAttempts b.averageAttempts ∨
        (specAvgEq a.averageAttempts b.averageAttempts ∧
          (b.wins < a.wins ∨
            (a.wins = b.wins ∧ charListLE (lowerName a) (lowerName b) = true)))))

/-- A summary is relevant to the leaderboard order when it arises from
`_make_summary` on some stored aggregate and has nonzero games. -/
def summaryWF (s : UserSummary) : Prop :=
  ∃ uid stats, s = mkSummary uid stats ∧ s.gamesPlayed ≠ 0

/-! ### load (src/wordler_bot/stats.py, lines 37-69) -/

/-- A JSON-like value, modelling what `json.load` can return. -/
inductive JVal where
  | jnull
  | jbool (b : Bool)
  | jnum (n : Int)
  | jstr (s : String)
  | jarr (items : List JVal)
  | jobj (fields : List (String × JVal))
deriving Repr

/-- Lookup in a JSON object (`payload.get(...)`). -/
def jlookup (k : String) : List (String × JVal) → Option JVal
  | [] => none
  | p :: rest => if p.1 = k then some p.2 else jlookup k rest

/-- Python `str(item)` on a JSON value.  Scalars render exactly as Python
does; container rendering is simplified (no quoting of nested strings),
which no claim depends on. -/
def pyStr : JVal → String
  | JVal.jnull => "None"
  | JVal.jbool true => "True"
  | JVal.jbool false => "False"
  | JVal.jnum n => toString n
  | JVal.jstr s => s
  | JVal.jarr _ => "[...]"
  | JVal.jobj _ => "\x7b...\x7d"

/-- Model of `StatsManager.load` after a successful file read.  `none`
models a `json.JSONDecodeError` (malformed syntax).  Returns the new
`_stats` (still the raw per-user JSON objects, as the source keeps them)
and `_processed_messages`.  The function is total: no corrupt payload
raises. -/
def loadModel (payload : Option JVal) : List (String × JVal) × List String :=
  match payload with
  | none => ([], [])
  | some (JVal.jobj fields) =>
    let users :=
      match jlookup ("users") fields with
      | some (JVal.jobj u) => u
      | _ => []
    let processed :=
      match jlookup ("processed_messages") fields with
      | some (JVal.jarr items) => items.map pyStr
      | _ => []
    (users, processed)
  | some _ => ([], [])

/-- Test `isinstance(x, dict)` on an optional JSON value. -/
def isJObj : Option JVal → Bool
  | some (JVal.jobj _) => true
  | _ => false

/-- Test `isinstance(x, list)` on an optional JSON value. -/
def isJArr : Option JVal → Bool
  | some (JVal.jarr _) => true
  | _ => false

/-! ### Leaderboard snapshot accessors -/

/-- Modelled from the spec: the engine's leaderboard-snapshot storage.
The accessors `update_leaderboard_snapshot` / `get_leaderboard_snapshot`
are exercised by the repository's test-suite
(tests/test_stats_manager.py, test_leaderboard_snapshot_round_trip) but
are absent from src/wordler_bot/stats.py; spec §4.3 describes them as
pure storage of the previously published rank order, an explicit ordered
list of user ids. -/
structure SnapshotStore where
  snapshot : List String
deriving DecidableEq, Repr

/-- Modelled from the spec: `updateLeaderboardSnapshot(orderedUserIds)`
replaces the stored rank order. -/
def updateLeaderboardSnapshot (st : SnapshotStore) (orderedUserIds : List String) :
    SnapshotStore :=
  ⟨orderedUserIds⟩

/-- Modelled from the spec: `getLeaderboardSnapshot()` returns the stored
rank order. -/
def getLeaderboardSnapshot (st : SnapshotStore) : List String :=
  st.snapshot

/-! ### Declarative view of parse_daily_summary (for claim C6) -/

/-- The dedup key of a summary entry: the numeric id for mention entries
(`"id:{user_id}"` in the source), the lower-cased handle for plain-handle
entries (`"handle:{handle.lower()}"`). -/
def entryKey (e : DailySummaryEntry) : SeenKey :=
  match e.userId with
  | some n => SeenKey.idKey n
  | none => SeenKey.handleKey (pyLowerStr (e.handle.getD ("")))

/-- The entry emitted for a mention id. -/
def mkIdEntry (success : Bool) (attempts : Option Nat) (n : Nat) : DailySummaryEntry :=
  ⟨some n, none, success, attempts⟩

/-- The entry emitted for a plain handle match. -/
def mkHandleEntry (success : Bool) (attempts : Option Nat) (h : List Char) : DailySummaryEntry :=
  ⟨none, some (String.mk (pyStrip h)), success, attempts⟩

/-- Generic first-occurrence-wins deduplication by `entryKey`, threading
the seen-set; keeps the first entry carrying each key and preserves the
order of the kept entries. -/
def dedupEntries (seen : List SeenKey) :
    List DailySummaryEntry → List DailySummaryEntry × List SeenKey
  | [] => ([], seen)
  | e :: es =>
    if entryKey e ∈ seen then dedupEntries seen es
    else
      let out := dedupEntries (entryKey e :: seen) es
      (e :: out.1, out.2)

/-- The entries one summary line gives rise to before any deduplication:
the mention entries in their textual order, followed by the plain-handle
entries (taken from the mention-stripped body) in their textual order —
the encounter order of the extraction described by the spec. -/
def rawLineEntries (line : List Char) : List DailySummaryEntry :=
  match findScoreTail line with
  | none => []
  | some (c, tail) =>
    let body := pyStrip tail
    let success := !(c == 'X' || c == 'x')
    let attempts := if success then some (digitVal c) else none
    (findMentions body).map (mkIdEntry success attempts)
      ++ ((findHandles (stripMentions body)).filter
          (fun h => !(pyStrip h).isEmpty)).map (mkHandleEntry success attempts)

/-- All raw entries of a message, line by line. -/
def rawSummaryEntries (content : String) : List DailySummaryEntry :=
  if content.data.isEmpty then []
  else (pySplitlines content.data).flatMap rawLineEntries

/-! ### Concrete values used by witnesses and counterexamples -/

/-- The aggregate the store currently holds for a user (the `setdefault`
view: a blank record when the user is absent). -/
def aggOf (st : StoreState) (u : PyUser) : UserStats :=
  (alookup (Nat.repr u.id) st.stats).getD (blankStats u.displayName)

/-- An empty store. -/
def demoStore : StoreState := ⟨[], []⟩

/-- A demo Discord user. -/
def demoUser : PyUser := ⟨1, "A"⟩

/-- A demo successful result in three attempts. -/
def demoWin : WordleResult := ⟨some 1, true, some 3, false, []⟩

/-- The result `parse_wordle_message` produces for `"Wordle 1 0/6"`:
a win with zero attempts. -/
def demoZeroWin : WordleResult := ⟨some 1, true, some 0, false, []⟩

/-- Sum of the guess-distribution counts over the buckets `"1"` .. `"6"`
(the keys named by the invariant; other buckets such as `"0"` are not
counted). -/
def distSum16 (d : List (Nat × Nat)) : Nat :=
  distLookup d 1 + distLookup d 2 + distLookup d 3 + distLookup d 4 +
    distLookup d 5 + distLookup d 6

/-- Apply a sequence of record mutations — each a (display name, result,
timestamp) triple — to one user's aggregate. -/
def applyRecords (l : List (String × WordleResult × String)) (init : UserStats) : UserStats :=
  l.foldl (fun agg t => updateStats agg t.1 t.2.1 t.2.2) init

/-- Total attempts accumulated across the successful results of a record
sequence (`attempts or 0` per win, as the source adds it). -/
def sumWinAttempts (l : List (String × WordleResult × String)) : Nat :=
  (l.map (fun t => if t.2.1.success then t.2.1.attempts.getD 0 else 0)).sum

/-! ### Helper lemmas -/

theorem alookup_aset_self (k : String) (v : UserStats) :
    ∀ l : List (String × UserStats), alookup k (aset k v l) = some v := by
  intro l
  induction l with
  | nil => simp [aset, alookup]
  | cons p rest ih =>
    by_cases hp : p.1 = k
    · simp [aset, hp, alookup]
    · simp [aset, hp, alookup, ih]

theorem updateStats_wins_add_losses (prev : UserStats) (dn : String)
    (r : WordleResult) (now : String) :
    (updateStats prev dn r now).wins + (updateStats prev dn r now).losses =
      prev.wins + prev.losses + 1 := by
  unfold updateStats
  cases r.success <;> simp <;> omega

theorem updateStats_games (prev : UserStats) (dn : String)
    (r : WordleResult) (now : String) :
    (updateStats prev dn r now).gamesPlayed =
      (updateStats prev dn r now).wins + (updateStats prev dn r now).losses := by
  unfold updateStats
  cases r.success <;> simp

theorem aggOf_recordMutate (st : StoreState) (u : PyUser) (r : WordleResult)
    (key : Option String) (now : String) :
    aggOf (recordMutate st u r key now) u =
      updateStats (aggOf st u) u.displayName r now := by
  unfold aggOf recordMutate
  simp [alookup_aset_self]

theorem boardFold_eq_filter_map (ls : List (List Char)) :
    ∀ acc : List (List Char),
      ls.foldl (fun acc line => if (pyStrip line).isEmpty then acc else acc ++ [pyRstrip line]) acc
        = acc ++ (ls.filter (fun l => !(pyStrip l).isEmpty)).map pyRstrip := by
  induction ls with
  | nil => intro acc; simp
  | cons l rest ih =>
    intro acc
    rcases hb : (pyStrip l).isEmpty
    · simp only [List.foldl_cons, hb, Bool.false_eq_true, if_false, List.filter_cons,
        Bool.not_false, ih, List.map_cons]
      simp [List.append_assoc]
    · simp only [List.foldl_cons, hb, if_true, List.filter_cons, Bool.not_true, ih]
      simp [List.append_assoc]

theorem matchWordleAt_score {cs : List Char} {p : Nat} {sc : Char} {hard : Bool}
    (hm : matchWordleAt cs = some (p, sc, hard)) : isScoreChar sc = true := by
  unfold matchWordleAt at hm
  dsimp only at hm
  split at hm
  · split at hm
    · exact absurd hm (by simp)
    · split at hm
      · exact absurd hm (by simp)
      · split at hm
        · exact absurd hm (by simp)
        · split at hm
          · split at hm
            · rename_i hguard
              cases hm
              simp only [Bool.and_eq_true, beq_iff_eq] at hguard
              exact hguard.1.1
            · exact absurd hm (by simp)
          · exact absurd hm (by simp)
  · exact absurd hm (by simp)

theorem searchWordle_score {cs : List Char} {p : Nat} {sc : Char} {hard : Bool}
    (hs : searchWordle cs = some (p, sc, hard)) : isScoreChar sc = true := by
  unfold searchWordle at hs
  obtain ⟨a, _, ha⟩ := List.exists_of_findSome?_eq_some hs
  exact matchWordleAt_score ha

/-! ### Claim C3: the board lines of a parsed share message -/

/-- C3 (amended): whenever `parse_wordle_message` returns a result, its
board consists of the non-blank lines strictly after the FIRST line of
the message (`splitlines()[1:]` — not after the matched line, which may
lie further down and then appears in the board itself), in original
order, each with trailing whitespace stripped, truncated to the first
six; every blank line — leading, internal or trailing — is skipped, so
internal blank-line structure is not preserved either.  (The amendment
replaces the claim's "after the matched line" by "after the first line"
and drops the preserved-internal-blank-structure reading; see the
counterexample.) -/
theorem parse_board_characterization :
    ∀ (content : String) (r : WordleResult), parseWordleMessage content = some r →
      r.board = ((((pySplitlines content.data).drop 1).filter
        (fun l => !(pyStrip l).isEmpty)).map (fun l => String.mk (pyRstrip l))).take 6 := by
  intro content r h
  unfold parseWordleMessage at h
  dsimp only at h
  split at h
  · exact absurd h (by simp)
  · split at h
    · exact absurd h (by simp)
    · rename_i p sc hard heq
      rw [Option.some.injEq] at h
      subst h
      show ((((pySplitlines content.data).drop 1).foldl
          (fun acc line => if (pyStrip line).isEmpty then acc else acc ++ [pyRstrip line])
          []).take 6).map (fun l => String.mk l) = _
      rw [boardFold_eq_filter_map, List.nil_append, ← List.map_take, List.map_map,
        List.map_take]
      rfl

/-- C3 witness: the amended board characterization applied to a concrete
share message with leading blank, trailing whitespace and a trailing
blank line. -/
theorem parse_board_characterization_witness :
    (WordleResult.mk (some 9) false none true ["row1", "row2"]).board
      = ((((pySplitlines (String.data ("Wordle 9 X/6*\nrow1\n\nrow2  \n"))).drop 1).filter
        (fun l => !(pyStrip l).isEmpty)).map (fun l => String.mk (pyRstrip l))).take 6 :=
  parse_board_characterization ("Wordle 9 X/6*\nrow1\n\nrow2  \n")
    (WordleResult.mk (some 9) false none true ["row1", "row2"]) (by rfl)

/-- C3 counterexample: when the share line is not the first line of the
message, the matched line itself lands in the board — here the board is
`["Wordle 100 3/6", "AAA"]`, whereas the claim requires only the lines
after the matched line (`["AAA"]`). -/
theorem parse_board_contains_matched_line :
    parseWordleMessage ("intro\nWordle 100 3/6\nAAA")
      = some ⟨some 100, true, some 3, false, ["Wordle 100 3/6", "AAA"]⟩ := by
  rfl

/-! ### Claim C5: success and attempts of a parsed share message -/

/-- C5 (amended): whenever `parse_wordle_message` matches, `success` is
false exactly when the score token is `X`/`x`, and `attempts` is present
exactly when `success` is true, in which case it equals the numeric value
of the score digit, which lies in the range 0..6.  (The amendment widens
the claim's range 1..6 to 0..6: the score class `[0-6Xx]` admits the
digit `0`, which yields a successful result with `attempts = 0`; see the
counterexample.) -/
theorem parse_success_attempts :
    ∀ (content : String) (r : WordleResult), parseWordleMessage content = some r →
      ∃ p sc hard, searchWordle content.data = some (p, sc, hard) ∧
        (r.success = false ↔ (sc = 'X' ∨ sc = 'x')) ∧
        ((∃ a, r.attempts = some a) ↔ r.success = true) ∧
        (∀ a, r.attempts = some a → a = digitVal sc ∧ a ≤ 6) := by
  intro content r h
  unfold parseWordleMessage at h
  dsimp only at h
  split at h
  · exact absurd h (by simp)
  · split at h
    · exact absurd h (by simp)
    · rename_i p sc hard heq
      rw [Option.some.injEq] at h
      subst h
      refine ⟨p, sc, hard, heq, ?_, ?_, ?_⟩
      · show (!(sc == 'X' || sc == 'x')) = false ↔ (sc = 'X' ∨ sc = 'x')
        simp only [Bool.not_eq_false', Bool.or_eq_true, beq_iff_eq]
      · show (∃ a, (if (!(sc == 'X' || sc == 'x')) = true then some (digitVal sc) else none)
            = some a) ↔ (!(sc == 'X' || sc == 'x')) = true
        rcases hx : (sc == 'X' || sc == 'x')
        · simp [hx]
        · simp [hx]
      · intro a ha
        rcases hx : (sc == 'X' || sc == 'x')
        · simp only [hx, Bool.not_false, if_true, Option.some.injEq] at ha
          subst ha
          have hsc := searchWordle_score heq
          simp only [isScoreChar, Bool.or_eq_true, beq_iff_eq] at hsc
          simp only [Bool.or_eq_false_iff, beq_eq_false_iff_ne] at hx
          rcases hsc with ((((((((h0 | h0) | h0) | h0) | h0) | h0) | h0) | h0) | h0) <;>
            first
              | (subst h0; exact ⟨rfl, by decide⟩)
              | (exact absurd h0 hx.1)
              | (exact absurd h0 hx.2)
        · simp only [hx, Bool.not_true, if_false] at ha
          exact absurd ha (by simp)

/-- C5 witness: the amended success/attempts characterization applied to
the concrete share message `"Wordle 123 4/6"`. -/
theorem parse_success_attempts_witness :
    ∃ p sc hard, searchWordle (String.data ("Wordle 123 4/6")) = some (p, sc, hard) ∧
      ((WordleResult.mk (some 123) true (some 4) false []).success = false
        ↔ (sc = 'X' ∨ sc = 'x')) ∧
      ((∃ a, (WordleResult.mk (some 123) true (some 4) false []).attempts = some a)
        ↔ (WordleResult.mk (some 123) true (some 4) false []).success = true) ∧
      (∀ a, (WordleResult.mk (some 123) true (some 4) false []).attempts = some a →
        a = digitVal sc ∧ a ≤ 6) :=
  parse_success_attempts ("Wordle 123 4/6")
    (WordleResult.mk (some 123) true (some 4) false []) (by rfl)

/-- C5 counterexample: the score token `0` is accepted by the share
pattern and produces a successful result whose `attempts` is 0 — outside
the claim's required range 1..6 (and outside the spec's `attempts:
optional int (1..6, present iff success)` data model). -/
theorem parse_zero_score_attempts :
    parseWordleMessage ("Wordle 1 0/6") = some ⟨some 1, true, some 0, false, []⟩ := by
  rfl

theorem distLookup_map_bump_ne (b i : Nat) (hne : i ≠ b) :
    ∀ d : List (Nat × Nat),
      distLookup (d.map (fun p => if p.1 = b then (p.1, p.2 + 1) else p)) i
        = distLookup d i := by
  intro d
  induction d with
  | nil => rfl
  | cons p rest ih =>
    by_cases hp : p.1 = b
    · have hbi : ¬ b = i := fun h => hne h.symm
      simp [distLookup, hp, hbi, ih]
    · by_cases hi : p.1 = i
      · simp [distLookup, hp, hi, hne]
      · simp [distLookup, hp, hi, ih]

theorem distLookup_map_bump_eq (b : Nat) :
    ∀ d : List (Nat × Nat), d.any (fun p => p.1 == b) = true →
      distLookup (d.map (fun p => if p.1 = b then (p.1, p.2 + 1) else p)) b
        = distLookup d b + 1 := by
  intro d
  induction d with
  | nil => intro h; exact absurd h (by simp)
  | cons p rest ih =>
    intro h
    by_cases hp : p.1 = b
    · simp [distLookup, hp]
    · have hrest : rest.any (fun p => p.1 == b) = true := by
        simp only [List.any_cons, Bool.or_eq_true, beq_iff_eq] at h
        rcases h with h | h
        · exact absurd h hp
        · exact h
      simp [distLookup, hp, ih hrest]

theorem distLookup_append_ne (b i : Nat) (hne : i ≠ b) :
    ∀ d : List (Nat × Nat), distLookup (d ++ [(b, 1)]) i = distLookup d i := by
  intro d
  induction d with
  | nil => simp [distLookup, Ne.symm hne]
  | cons p rest ih =>
    by_cases hi : p.1 = i
    · simp [distLookup, hi]
    · simp [distLookup, hi, ih]

theorem distLookup_append_eq (b : Nat) :
    ∀ d : List (Nat × Nat), d.any (fun p => p.1 == b) = false →
      distLookup (d ++ [(b, 1)]) b = distLookup d b + 1 := by
  intro d
  induction d with
  | nil => intro _; simp [distLookup]
  | cons p rest ih =>
    intro h
    simp only [List.any_cons, Bool.or_eq_false_iff, beq_eq_false_iff_ne] at h
    simp [distLookup, h.1, ih (by simp [h.2])]

theorem distBump_lookup (d : List (Nat × Nat)) (b i : Nat) :
    distLookup (distBump d b) i = distLookup d i + (if i = b then 1 else 0) := by
  unfold distBump
  rcases hk : d.any (fun p => p.1 == b)
  · by_cases hi : i = b
    · subst hi
      simp [distLookup_append_eq i d hk]
    · simp [distLookup_append_ne b i hi, hi]
  · by_cases hi : i = b
    · subst hi
      simp [distLookup_map_bump_eq i d hk]
    · simp [distLookup_map_bump_ne b i hi, hi]

theorem distSum16_bump (d : List (Nat × Nat)) (a : Nat) (h1 : 1 ≤ a) (h6 : a ≤ 6) :
    distSum16 (distBump d a) = distSum16 d + 1 := by
  simp only [distSum16, distBump_lookup]
  interval_cases a <;> simp <;> omega

theorem updateStats_success_fields (prev : UserStats) (dn : String)
    (r : WordleResult) (now : String) (h : r.success = true) :
    (updateStats prev dn r now).wins = prev.wins + 1 ∧
    (updateStats prev dn r now).losses = prev.losses ∧
    (updateStats prev dn r now).totalAttempts = prev.totalAttempts + r.attempts.getD 0 ∧
    (updateStats prev dn r now).guessDistribution
      = distBump prev.guessDistribution (r.attempts.getD 0) := by
  unfold updateStats
  simp [h]

theorem updateStats_failure_fields (prev : UserStats) (dn : String)
    (r : WordleResult) (now : String) (h : r.success = false) :
    (updateStats prev dn r now).wins = prev.wins ∧
    (updateStats prev dn r now).losses = prev.losses + 1 ∧
    (updateStats prev dn r now).totalAttempts = prev.totalAttempts ∧
    (updateStats prev dn r now).guessDistribution = prev.guessDistribution := by
  unfold updateStats
  simp [h]

theorem sumWinAttempts_cons (t : String × WordleResult × String)
    (rest : List (String × WordleResult × String)) :
    sumWinAttempts (t :: rest)
      = (if t.2.1.success then t.2.1.attempts.getD 0 else 0) + sumWinAttempts rest := by
  simp [sumWinAttempts]

theorem applyRecords_invariant :
    ∀ (l : List (String × WordleResult × String)) (agg : UserStats),
      agg.gamesPlayed = agg.wins + agg.losses →
      distSum16 agg.guessDistribution = agg.wins →
      (∀ t ∈ l, t.2.1.success = true → ∃ a, t.2.1.attempts = some a ∧ 1 ≤ a ∧ a ≤ 6) →
      (applyRecords l agg).gamesPlayed
          = (applyRecords l agg).wins + (applyRecords l agg).losses ∧
      distSum16 (applyRecords l agg).guessDistribution = (applyRecords l agg).wins ∧
      (applyRecords l agg).totalAttempts = agg.totalAttempts + sumWinAttempts l := by
  intro l
  induction l with
  | nil =>
    intro agg hg hd _
    exact ⟨hg, hd, by simp [applyRecords, sumWinAttempts]⟩
  | cons t rest ih =>
    intro agg hg hd hl
    have hstep : applyRecords (t :: rest) agg
        = applyRecords rest (updateStats agg t.1 t.2.1 t.2.2) := by
      simp [applyRecords]
    have hg2 := updateStats_games agg t.1 t.2.1 t.2.2
    have hd2 : distSum16 (updateStats agg t.1 t.2.1 t.2.2).guessDistribution
        = (updateStats agg t.1 t.2.1 t.2.2).wins := by
      rcases hs : t.2.1.success
      · obtain ⟨hw, _, _, hdist⟩ := updateStats_failure_fields agg t.1 t.2.1 t.2.2 hs
        rw [hdist, hw, hd]
      · obtain ⟨a, ha, h1, h6⟩ := hl t (by simp) hs
        obtain ⟨hw, _, _, hdist⟩ := updateStats_success_fields agg t.1 t.2.1 t.2.2 hs
        rw [hdist, hw, ha]
        show distSum16 (distBump agg.guessDistribution a) = agg.wins + 1
        rw [distSum16_bump agg.guessDistribution a h1 h6, hd]
    have hrest : ∀ x ∈ rest, x.2.1.success = true →
        ∃ a, x.2.1.attempts = some a ∧ 1 ≤ a ∧ a ≤ 6 := by
      intro x hx
      exact hl x (by simp [hx])
    obtain ⟨cg, cd, ct⟩ := ih (updateStats agg t.1 t.2.1 t.2.2) hg2 hd2 hrest
    refine ⟨by rw [hstep]; exact cg, by rw [hstep]; exact cd, ?_⟩
    rw [hstep, ct, sumWinAttempts_cons]
    rcases hs : t.2.1.success
    · obtain ⟨_, _, ht, _⟩ := updateStats_failure_fields agg t.1 t.2.1 t.2.2 hs
      rw [ht]
      simp
    · obtain ⟨_, _, ht, _⟩ := updateStats_success_fields agg t.1 t.2.1 t.2.2 hs
      rw [ht]
      simp
      omega

/-! ### Claim C4: per-user aggregate invariants -/

/-- C4 (amended): for every user aggregate reachable from the blank
aggregate by a sequence of record mutations in which every successful
result carries an attempts value in 1..6, the invariant holds:
`games_played = wins + losses`, the guess-distribution counts for buckets
"1".."6" sum to `wins`, and `total_attempts` is exactly the sum of the
attempts of the successful results (so it accumulates only on wins).
(The amendment adds the restriction of successful attempts to 1..6: a
successful result with attempts 0 — producible by the parser from a
`0/6` score — is counted under a `"0"` bucket outside the distribution's
"1".."6" keys, breaking the distribution-sum part; see the
counterexample.  The games-played and total-attempts parts hold without
the restriction.) -/
theorem aggregate_invariants (l : List (String × WordleResult × String)) (d0 : String)
    (hl : ∀ t ∈ l, t.2.1.success = true → ∃ a, t.2.1.attempts = some a ∧ 1 ≤ a ∧ a ≤ 6) :
    (applyRecords l (blankStats d0)).gamesPlayed
        = (applyRecords l (blankStats d0)).wins + (applyRecords l (blankStats d0)).losses ∧
    distSum16 (applyRecords l (blankStats d0)).guessDistribution
        = (applyRecords l (blankStats d0)).wins ∧
    (applyRecords l (blankStats d0)).totalAttempts = sumWinAttempts l := by
  obtain ⟨cg, cd, ct⟩ := applyRecords_invariant l (blankStats d0) rfl rfl hl
  exact ⟨cg, cd, by rw [ct]; simp [blankStats]⟩

/-- C4 witness: the aggregate invariants applied to a concrete two-record
sequence (a three-attempt win, then a loss). -/
theorem aggregate_invariants_witness :
    (applyRecords [("A", demoWin, "t1"), ("A", ⟨some 2, false, none, false, []⟩, "t2")]
        (blankStats "A")).gamesPlayed
      = (applyRecords [("A", demoWin, "t1"), ("A", ⟨some 2, false, none, false, []⟩, "t2")]
        (blankStats "A")).wins
        + (applyRecords [("A", demoWin, "t1"), ("A", ⟨some 2, false, none, false, []⟩, "t2")]
        (blankStats "A")).losses ∧
    distSum16 (applyRecords [("A", demoWin, "t1"), ("A", ⟨some 2, false, none, false, []⟩, "t2")]
        (blankStats "A")).guessDistribution
      = (applyRecords [("A", demoWin, "t1"), ("A", ⟨some 2, false, none, false, []⟩, "t2")]
        (blankStats "A")).wins ∧
    (applyRecords [("A", demoWin, "t1"), ("A", ⟨some 2, false, none, false, []⟩, "t2")]
        (blankStats "A")).totalAttempts
      = sumWinAttempts [("A", demoWin, "t1"), ("A", ⟨some 2, false, none, false, []⟩, "t2")] :=
  aggregate_invariants [("A", demoWin, "t1"), ("A", ⟨some 2, false, none, false, []⟩, "t2")]
    ("A") (by decide)

/-- C4 counterexample: a single record of the parser-reachable result of
`"Wordle 1 0/6"` (success with attempts 0) leaves the "1".."6"
distribution counts summing to 0 while `wins` is 1 — the original
invariant demands they be equal after every record sequence. -/
theorem aggregate_invariant_breaks_on_zero_attempts :
    parseWordleMessage ("Wordle 1 0/6") = some demoZeroWin ∧
    (applyRecords [("p", demoZeroWin, "t")] (blankStats "p")).wins = 1 ∧
    distSum16 (applyRecords [("p", demoZeroWin, "t")] (blankStats "p")).guessDistribution
      = 0 := by
  refine ⟨rfl, rfl, rfl⟩

theorem entryKey_mkIdEntry (s : Bool) (a : Option Nat) (n : Nat) :
    entryKey (mkIdEntry s a n) = SeenKey.idKey n := rfl

theorem entryKey_mkHandleEntry (s : Bool) (a : Option Nat) (h : List Char) :
    entryKey (mkHandleEntry s a h)
      = SeenKey.handleKey (String.mk ((pyStrip h).map asciiLower)) := rfl

theorem processMentions_eq (s : Bool) (a : Option Nat) :
    ∀ (ids : List Nat) (seen : List SeenKey),
      processMentions s a ids seen = dedupEntries seen (ids.map (mkIdEntry s a)) := by
  intro ids
  induction ids with
  | nil => intro seen; rfl
  | cons n ns ih =>
    intro seen
    by_cases hk : SeenKey.idKey n ∈ seen
    · simp [processMentions, dedupEntries, entryKey, mkIdEntry, hk, ih]
    · simp [processMentions, dedupEntries, entryKey, mkIdEntry, hk, ih]

theorem processHandles_eq (s : Bool) (a : Option Nat) :
    ∀ (hs : List (List Char)) (seen : List SeenKey),
      processHandles s a hs seen
        = dedupEntries seen
            ((hs.filter (fun h => !(pyStrip h).isEmpty)).map (mkHandleEntry s a)) := by
  intro hs
  induction hs with
  | nil => intro seen; rfl
  | cons h rest ih =>
    intro seen
    rcases he : (pyStrip h).isEmpty
    · by_cases hk : SeenKey.handleKey (String.mk ((pyStrip h).map asciiLower)) ∈ seen
      · simp [processHandles, dedupEntries, he, entryKey, pyLowerStr, hk, ih, mkHandleEntry]
      · simp [processHandles, dedupEntries, he, entryKey, pyLowerStr, hk, ih, mkHandleEntry]
    · simp [processHandles, he, ih]

theorem dedupEntries_append :
    ∀ (l1 l2 : List DailySummaryEntry) (seen : List SeenKey),
      dedupEntries seen (l1 ++ l2)
        = ((dedupEntries seen l1).1
            ++ (dedupEntries (dedupEntries seen l1).2 l2).1,
           (dedupEntries (dedupEntries seen l1).2 l2).2) := by
  intro l1
  induction l1 with
  | nil => intro l2 seen; simp [dedupEntries]
  | cons e es ih =>
    intro l2 seen
    by_cases hk : entryKey e ∈ seen
    · simp [dedupEntries, hk, ih]
    · simp [dedupEntries, hk, ih]

theorem processLine_eq (seen : List SeenKey) (line : List Char) :
    processLine seen line = dedupEntries seen (rawLineEntries line) := by
  unfold processLine rawLineEntries
  rcases hf : findScoreTail line with _ | ⟨c, tail⟩
  · rfl
  · dsimp only
    rw [processMentions_eq, processHandles_eq, dedupEntries_append]

theorem parseDailySummaryAux_eq :
    ∀ (lines : List (List Char)) (seen : List SeenKey),
      parseDailySummaryAux seen lines
        = (dedupEntries seen (lines.flatMap rawLineEntries)).1 := by
  intro lines
  induction lines with
  | nil => intro seen; rfl
  | cons line rest ih =>
    intro seen
    show (processLine seen line).1 ++ parseDailySummaryAux (processLine seen line).2 rest = _
    rw [processLine_eq, ih, List.flatMap_cons, dedupEntries_append]

theorem parseDailySummary_eq_dedup (content : String) :
    parseDailySummary content = (dedupEntries [] (rawSummaryEntries content)).1 := by
  unfold parseDailySummary rawSummaryEntries
  rcases he : content.data.isEmpty
  · simp only [he, Bool.false_eq_true, if_false]
    exact parseDailySummaryAux_eq (pySplitlines content.data) []
  · rfl

theorem dedupEntries_pairwise :
    ∀ (l : List DailySummaryEntry) (seen : List SeenKey),
      (∀ e ∈ (dedupEntries seen l).1, entryKey e ∉ seen) ∧
      (dedupEntries seen l).1.Pairwise (fun a b => entryKey a ≠ entryKey b) := by
  intro l
  induction l with
  | nil =>
    intro seen
    constructor
    · intro e he
      simp [dedupEntries] at he
    · simp [dedupEntries]
  | cons e es ih =>
    intro seen
    by_cases hk : entryKey e ∈ seen
    · simpa [dedupEntries, hk] using ih seen
    · obtain ⟨hnotin, hpw⟩ := ih (entryKey e :: seen)
      have hout : (dedupEntries seen (e :: es)).1
          = e :: (dedupEntries (entryKey e :: seen) es).1 := by
        simp [dedupEntries, hk]
      rw [hout]
      constructor
      · intro x hx
        rcases List.mem_cons.mp hx with hx | hx
        · subst hx
          exact hk
        · intro hcon
          exact hnotin x hx (List.mem_cons_of_mem _ hcon)
      · refine List.pairwise_cons.mpr ⟨?_, hpw⟩
        intro x hx hcon
        exact hnotin x hx (by rw [← hcon]; exact List.mem_cons_self _ _)

theorem dedupEntries_subset :
    ∀ (l : List DailySummaryEntry) (seen : List SeenKey) (e : DailySummaryEntry),
      e ∈ (dedupEntries seen l).1 → e ∈ l := by
  intro l
  induction l with
  | nil =>
    intro seen e he
    simp [dedupEntries] at he
  | cons x xs ih =>
    intro seen e he
    by_cases hk : entryKey x ∈ seen
    · simp only [dedupEntries, hk, if_true] at he
      exact List.mem_cons_of_mem _ (ih seen e he)
    · simp only [dedupEntries, hk, if_false] at he
      rcases List.mem_cons.mp he with he | he
      · subst he
        exact List.mem_cons_self _ _
      · exact List.mem_cons_of_mem _ (ih (entryKey x :: seen) e he)

theorem rawSummaryEntries_shape (content : String) :
    ∀ e ∈ rawSummaryEntries content, e.userId = none ∨ e.handle = none := by
  intro e he
  unfold rawSummaryEntries at he
  split at he
  · simp at he
  · obtain ⟨line, _, hline⟩ := List.mem_flatMap.mp he
    unfold rawLineEntries at hline
    split at hline
    · simp at hline
    · rcases List.mem_append.mp hline with hm | hm
      · obtain ⟨n, _, hn⟩ := List.mem_map.mp hm
        right
        rw [← hn]
        rfl
      · obtain ⟨h, _, hh⟩ := List.mem_map.mp hm
        left
        rw [← hh]
        rfl

theorem pairwise_key_filter_le_one (l : List DailySummaryEntry)
    (p : DailySummaryEntry → Bool)
    (hpw : l.Pairwise (fun a b => entryKey a ≠ entryKey b))
    (hkey : ∀ a b, a ∈ l → b ∈ l → p a = true → p b = true → entryKey a = entryKey b) :
    (l.filter p).length ≤ 1 := by
  rcases hf : l.filter p with _ | ⟨a, _ | ⟨b, rest⟩⟩
  · simp
  · simp
  · exfalso
    have hpf := hpw.filter p
    rw [hf] at hpf
    have hne : entryKey a ≠ entryKey b := (List.pairwise_cons.mp hpf).1 b (by simp)
    have ha : a ∈ l.filter p := by rw [hf]; simp
    have hb : b ∈ l.filter p := by rw [hf]; simp
    exact hne (hkey a b (List.mem_of_mem_filter ha) (List.mem_of_mem_filter hb)
      (List.of_mem_filter ha) (List.of_mem_filter hb))

theorem charListLE_total : ∀ xs ys : List Char,
    charListLE xs ys = true ∨ charListLE ys xs = true := by
  intro xs
  induction xs with
  | nil => intro ys; left; rfl
  | cons a as ih =>
    intro ys
    cases ys with
    | nil => right; rfl
    | cons b bs =>
      by_cases hab : a = b
      · subst hab
        rcases ih bs with h | h
        · left
          simp [charListLE, h]
        · right
          simp [charListLE, h]
      · rcases lt_or_gt_of_ne hab with h | h
        · left
          simp [charListLE, hab, h]
        · right
          simp [charListLE, Ne.symm hab, h]

theorem charListLE_trans : ∀ xs ys zs : List Char,
    charListLE xs ys = true → charListLE ys zs = true → charListLE xs zs = true := by
  intro xs
  induction xs with
  | nil => intro ys zs _ _; rfl
  | cons a as ih =>
    intro ys zs h1 h2
    cases ys with
    | nil => exact absurd h1 (by simp [charListLE])
    | cons b bs =>
      cases zs with
      | nil => exact absurd h2 (by simp [charListLE])
      | cons c cs =>
        by_cases hab : a = b
        · subst hab
          by_cases hbc : a = c
          · subst hbc
            simp only [charListLE, if_pos rfl] at h1 h2 ⊢
            exact ih bs cs h1 h2
          · simp only [charListLE, if_pos rfl] at h1
            simp only [charListLE, if_neg hbc] at h2 ⊢
            exact h2
        · simp only [charListLE, if_neg hab, decide_eq_true_eq] at h1
          by_cases hbc : b = c
          · subst hbc
            simp only [charListLE, if_neg hab, decide_eq_true_eq]
            exact h1
          · simp only [charListLE, if_neg hbc, decide_eq_true_eq] at h2
            have hac : a < c := lt_trans h1 h2
            simp only [charListLE, if_neg (ne_of_lt hac), decide_eq_true_eq]
            exact hac

theorem codeLE_iff (a b : UserSummary) :
    codeLE a b = true ↔
      (b.winRate < a.winRate ∨ (a.winRate = b.winRate ∧
        (avgKey a < avgKey b ∨ (avgKey a = avgKey b ∧
          (b.wins < a.wins ∨ (a.wins = b.wins
            ∧ charListLE (lowerName a) (lowerName b) = true)))))) := by
  unfold codeLE
  by_cases h1 : a.winRate = b.winRate
  · by_cases h2 : avgKey a = avgKey b
    · by_cases h3 : a.wins = b.wins
      · simp [h1, h2, h3]
      · simp [h1, h2, h3]
    · simp [h1, h2]
  · simp [h1]

theorem codeLE_total : ∀ a b : UserSummary, codeLE a b = true ∨ codeLE b a = true := by
  intro a b
  rw [codeLE_iff, codeLE_iff]
  by_cases h1 : a.winRate = b.winRate
  · by_cases h2 : avgKey a = avgKey b
    · by_cases h3 : a.wins = b.wins
      · rcases charListLE_total (lowerName a) (lowerName b) with h | h
        · exact Or.inl (Or.inr ⟨h1, Or.inr ⟨h2, Or.inr ⟨h3, h⟩⟩⟩)
        · exact Or.inr (Or.inr ⟨h1.symm, Or.inr ⟨h2.symm, Or.inr ⟨h3.symm, h⟩⟩⟩)
      · rcases lt_or_gt_of_ne h3 with h | h
        · exact Or.inr (Or.inr ⟨h1.symm, Or.inr ⟨h2.symm, Or.inl h⟩⟩)
        · exact Or.inl (Or.inr ⟨h1, Or.inr ⟨h2, Or.inl h⟩⟩)
    · rcases lt_or_gt_of_ne h2 with h | h
      · exact Or.inl (Or.inr ⟨h1, Or.inl h⟩)
      · exact Or.inr (Or.inr ⟨h1.symm, Or.inl h⟩)
  · rcases lt_or_gt_of_ne h1 with h | h
    · exact Or.inr (Or.inl h)
    · exact Or.inl (Or.inl h)

theorem codeLE_total_bool : ∀ a b : UserSummary, (codeLE a b || codeLE b a) = true := by
  intro a b
  rcases codeLE_total a b with h | h <;> simp [h]

theorem codeLE_trans : ∀ a b c : UserSummary,
    codeLE a b = true → codeLE b c = true → codeLE a c = true := by
  intro a b c hab hbc
  rw [codeLE_iff] at hab hbc ⊢
  rcases hab with h | ⟨e1, hab⟩
  · rcases hbc with h2 | ⟨e2, _⟩
    · exact Or.inl (lt_trans h2 h)
    · exact Or.inl (e2 ▸ h)
  · rcases hbc with h2 | ⟨e2, hbc⟩
    · exact Or.inl (by rw [e1]; exact h2)
    · refine Or.inr ⟨e1.trans e2, ?_⟩
      rcases hab with h | ⟨f1, hab⟩
      · rcases hbc with h2 | ⟨f2, _⟩
        · exact Or.inl (lt_trans h h2)
        · exact Or.inl (f2 ▸ h)
      · rcases hbc with h2 | ⟨f2, hbc⟩
        · exact Or.inl (by rw [f1]; exact h2)
        · refine Or.inr ⟨f1.trans f2, ?_⟩
          rcases hab with h | ⟨g1, hab⟩
          · rcases hbc with h2 | ⟨g2, _⟩
            · exact Or.inl (lt_trans h2 h)
            · exact Or.inl (g2 ▸ h)
          · rcases hbc with h2 | ⟨g2, hbc⟩
            · exact Or.inl (by rw [g1]; exact h2)
            · exact Or.inr ⟨g1.trans g2, charListLE_trans _ _ _ hab hbc⟩

theorem eligible_wf (st : List (String × UserStats)) :
    ∀ s ∈ eligibleSummaries st, summaryWF s := by
  intro s hs
  obtain ⟨hmem, hg⟩ := List.mem_filter.mp hs
  obtain ⟨p, _, hp⟩ := List.mem_map.mp hmem
  refine ⟨p.1, p.2, hp.symm, ?_⟩
  simpa using hg

theorem wf_avg_none {s : UserSummary} (h : summaryWF s) :
    s.averageAttempts = none ↔ s.wins = 0 := by
  obtain ⟨uid, stats, rfl, _⟩ := h
  by_cases hw : stats.wins = 0
  · simp [mkSummary, hw]
  · simp [mkSummary, hw]

theorem wf_rate_pos {s : UserSummary} (h : summaryWF s) (hw : s.wins ≠ 0) :
    0 < s.winRate := by
  obtain ⟨uid, stats, rfl, hg⟩ := h
  have hg2 : stats.gamesPlayed ≠ 0 := by simpa [mkSummary] using hg
  have hw2 : stats.wins ≠ 0 := by simpa [mkSummary] using hw
  show 0 < (if stats.gamesPlayed = 0 then 0 else (stats.wins : ℚ) / stats.gamesPlayed)
  rw [if_neg hg2]
  exact div_pos (by exact_mod_cast Nat.pos_of_ne_zero hw2)
    (by exact_mod_cast Nat.pos_of_ne_zero hg2)

theorem wf_rate_zero {s : UserSummary} (h : summaryWF s) (hw : s.wins = 0) :
    s.winRate = 0 := by
  obtain ⟨uid, stats, rfl, _⟩ := h
  have hw2 : stats.wins = 0 := by simpa [mkSummary] using hw
  show (if stats.gamesPlayed = 0 then 0 else (stats.wins : ℚ) / stats.gamesPlayed) = 0
  by_cases hg : stats.gamesPlayed = 0
  · rw [if_pos hg]
  · rw [if_neg hg, hw2]
    simp

theorem wf_avg_mixed {a b : UserSummary} (ha : summaryWF a) (hb : summaryWF b)
    (hr : a.winRate = b.winRate) (hna : a.averageAttempts = none)
    (hsb : b.averageAttempts ≠ none) : False := by
  have hwa : a.wins = 0 := (wf_avg_none ha).mp hna
  have hwb : b.wins ≠ 0 := fun h => hsb ((wf_avg_none hb).mpr h)
  have h0 : a.winRate = 0 := wf_rate_zero ha hwa
  have hpos : 0 < b.winRate := wf_rate_pos hb hwb
  rw [hr] at h0
  exact absurd h0 (ne_of_gt hpos)

theorem codeLE_implies_specLE {a b : UserSummary} (ha : summaryWF a) (hb : summaryWF b)
    (h : codeLE a b = true) : specLE a b := by
  rw [codeLE_iff] at h
  rcases h with h | ⟨e1, h⟩
  · exact Or.inl h
  · refine Or.inr ⟨e1, ?_⟩
    rcases h with h | ⟨e2, h⟩
    · left
      rcases hA : a.averageAttempts with _ | x <;> rcases hB : b.averageAttempts with _ | y
      · rw [avgKey, avgKey, hA, hB] at h
        exact absurd h (lt_irrefl _)
      · exact (wf_avg_mixed ha hb e1 hA (by simp [hB])).elim
      · simp [specAvgLT, hA, hB]
      · rw [avgKey, avgKey, hA, hB] at h
        simp only [Option.getD_some] at h
        simp [specAvgLT, hA, hB, h]
    · refine Or.inr ⟨?_, h⟩
      rcases hA : a.averageAttempts with _ | x <;> rcases hB : b.averageAttempts with _ | y
      · simp [specAvgEq, hA, hB]
      · exact (wf_avg_mixed ha hb e1 hA (by simp [hB])).elim
      · exact (wf_avg_mixed hb ha e1.symm hB (by simp [hA])).elim
      · rw [avgKey, avgKey, hA, hB] at e2
        simp only [Option.getD_some] at e2
        simp [specAvgEq, hA, hB, e2]

/-! ### Claim C2: leaderboard contents, ordering and truncation -/

/-- C2: for every stats state and every limit, `leaderboard(limit)` is the
first `limit` entries of a list that is a permutation of exactly the
summaries of users with nonzero `games_played` (so a user with zero games
played never appears, regardless of limit) and is sorted by the claim's
order: `win_rate` descending, then `average_attempts` ascending with
no-wins (undefined average) after every defined average, then `wins`
descending, then display name case-insensitively ascending.  The source's
literal `99` sentinel for an undefined average coincides with the
claimed none-last order on every summary `_make_summary` can produce,
because a user with an undefined average has zero wins and hence win rate
0, while any user with a defined average has positive win rate, so the
two can never tie on win rate.  (Python float arithmetic is modelled as
exact rational arithmetic.) -/
theorem leaderboard_ordering :
    ∀ (st : List (String × UserStats)) (limit : Nat),
      ∃ l : List UserSummary,
        l.Perm (eligibleSummaries st) ∧
        l.Pairwise specLE ∧
        leaderboard st limit = l.take limit := by
  intro st limit
  refine ⟨(eligibleSummaries st).mergeSort codeLE, List.mergeSort_perm _ _, ?_, rfl⟩
  have hsorted := List.sorted_mergeSort codeLE_trans codeLE_total_bool (eligibleSummaries st)
  have hmem : ∀ s ∈ (eligibleSummaries st).mergeSort codeLE, summaryWF s := by
    intro s hs
    exact eligible_wf st s (((eligibleSummaries st).mergeSort_perm codeLE).mem_iff.mp hs)
  exact List.Pairwise.imp_of_mem
    (fun hma hmb hr => codeLE_implies_specLE (hmem _ hma) (hmem _ hmb) hr) hsorted

/-! ### Claim C6: deduplication in parse_daily_summary -/

/-- C6: a single `parse_daily_summary` call never emits two entries with
the same numeric `user_id`, nor two entries with case-insensitively equal
handles, even when the text repeats a mention or handle across lines or
within a line: for every id `n` at most one emitted entry carries
`user_id = n`, and for every handle string at most one emitted entry
carries a case-insensitively equal handle.  Moreover the output is
exactly the first-occurrence-wins deduplication, by id/lower-cased-handle
key, of the raw entry sequence in encounter order — the extraction order
the spec describes: lines in message order, and within each line the
mention entries (in textual order) followed by the plain-handle entries
of the mention-stripped body (in textual order).  First occurrence wins
and the relative order of the kept entries is preserved. -/
theorem parse_daily_summary_dedup :
    ∀ (content hstr : String) (n : Nat),
      parseDailySummary content = (dedupEntries [] (rawSummaryEntries content)).1 ∧
      ((parseDailySummary content).filter (fun e => e.userId == some n)).length ≤ 1 ∧
      ((parseDailySummary content).filter
        (fun e => e.handle.map pyLowerStr == some (pyLowerStr hstr))).length ≤ 1 := by
  intro content hstr n
  have heq := parseDailySummary_eq_dedup content
  have hpw := (dedupEntries_pairwise (rawSummaryEntries content) []).2
  refine ⟨heq, ?_, ?_⟩
  · rw [heq]
    apply pairwise_key_filter_le_one _ _ hpw
    intro a b _ _ hpa hpb
    simp only [beq_iff_eq] at hpa hpb
    simp [entryKey, hpa, hpb]
  · rw [heq]
    apply pairwise_key_filter_le_one _ _ hpw
    intro a b ha hb hpa hpb
    have hsa := rawSummaryEntries_shape content a (dedupEntries_subset _ _ _ ha)
    have hsb := rawSummaryEntries_shape content b (dedupEntries_subset _ _ _ hb)
    simp only [beq_iff_eq] at hpa hpb
    obtain ⟨va, hva, hla⟩ := Option.map_eq_some'.mp hpa
    obtain ⟨vb, hvb, hlb⟩ := Option.map_eq_some'.mp hpb
    have hua : a.userId = none := by
      rcases hsa with h | h
      · exact h
      · rw [h] at hva
        exact absurd hva (by simp)
    have hub : b.userId = none := by
      rcases hsb with h | h
      · exact h
      · rw [h] at hvb
        exact absurd hvb (by simp)
    simp [entryKey, hua, hub, hva, hvb, hla, hlb]

/-! ### Claim C9: leaderboard snapshot round-trip -/

/-- C9: the engine's `updateLeaderboardSnapshot(orderedUserIds)` followed by
`getLeaderboardSnapshot()` returns exactly the list that was stored, for
every ordered list of user ids and every prior snapshot state; the
accessors are pure storage of the previously published rank order. -/
theorem snapshot_round_trip :
    ∀ (st : SnapshotStore) (l : List String),
      getLeaderboardSnapshot (updateLeaderboardSnapshot st l) = l := by
  intro st l
  rfl

/-! ### Claim C10: record without any dedupe key always records -/

/-- C10: when `record_result` is called with both `message_id` and
`message_key` equal to `None`, no duplicate check fires and nothing is
added to the dedup set: both of two consecutive calls return `True`
("recorded"), the processed set is untouched, and the user's win/loss
tally grows by one per call — replaying an unkeyed submission
double-counts. -/
theorem recordResult_no_key_always_records :
    ∀ (st : StoreState) (u : PyUser) (r : WordleResult) (now1 now2 : String),
      (recordResult st u r none none now1).1 = true ∧
      (recordResult st u r none none now1).2.processed = st.processed ∧
      (recordResult (recordResult st u r none none now1).2 u r none none now2).1 = true ∧
      (recordResult (recordResult st u r none none now1).2 u r none none now2).2.processed
        = st.processed ∧
      (aggOf (recordResult (recordResult st u r none none now1).2 u r none none now2).2 u).wins
        + (aggOf (recordResult (recordResult st u r none none now1).2 u r none none now2).2 u).losses
        = (aggOf st u).wins + (aggOf st u).losses + 2 := by
  intro st u r now1 now2
  have h1 : recordResult st u r none none now1 = (true, recordMutate st u r none now1) := rfl
  have h2 : recordResult (recordMutate st u r none now1) u r none none now2
      = (true, recordMutate (recordMutate st u r none now1) u r none now2) := rfl
  refine ⟨?_, ?_, ?_, ?_, ?_⟩
  · rw [h1]
  · rw [h1]
    rfl
  · rw [h1, h2]
  · rw [h1, h2]
    rfl
  · rw [h1, h2]
    rw [aggOf_recordMutate, aggOf_recordMutate, updateStats_wins_add_losses,
      updateStats_wins_add_losses]

/-! ### Claim C7: persist failure is surfaced, never reported as recorded -/

/-- C7: if the persist step of `record_result` fails, the call never
returns the "recorded" outcome: it either propagates the persistence
error (the non-duplicate path, where `_persist_locked()` runs before
`return True`), or it is the duplicate path, which returned the
"duplicate" outcome before ever attempting to persist.  In no case does a
failed durable write coexist with a `True` result. -/
theorem recordResultE_persist_failure_never_recorded :
    ∀ (st : StoreState) (u : PyUser) (r : WordleResult) (mid : Option Nat)
      (mkey : Option String) (now e : String),
      recordResultE st u r mid mkey now (Except.error e) = Except.error e ∨
      recordResultE st u r mid mkey now (Except.error e) = Except.ok (false, st) := by
  intro st u r mid mkey now e
  by_cases hdup : isDuplicate st (deriveKey mid mkey) = true
  · right
    simp [recordResultE, hdup]
  · left
    simp [recordResultE, hdup]

/-! ### Claim C1: idempotence of record under one dedupe key -/

/-- C1 (amended): for every store state and every derived dedupe key that
is non-empty and not already in the dedup set, calling `record_result`
twice with the same arguments mutates the state exactly once: the first
call records (returns `True`) and adds the key to the dedup set, and the
second call returns `False` ("duplicate") and leaves the entire state —
user map and dedup set — unchanged.  (The amendment restricts the claim's
"every state and every dedupe key" to fresh, non-empty keys: a key that
is already present makes the first call itself report a duplicate, and a
derived empty-string key is falsy in Python, skips the dedup set
entirely, and double-counts; see the counterexample.) -/
theorem recordResult_fresh_key_idempotent
    (st : StoreState) (u : PyUser) (r : WordleResult) (mid : Option Nat)
    (mkey : Option String) (now1 now2 : String) (k : String)
    (hk : deriveKey mid mkey = some k) (hne : k ≠ "")
    (hmem : k ∉ st.processed) :
    (recordResult st u r mid mkey now1).1 = true ∧
    k ∈ (recordResult st u r mid mkey now1).2.processed ∧
    (recordResult (recordResult st u r mid mkey now1).2 u r mid mkey now2).1 = false ∧
    (recordResult (recordResult st u r mid mkey now1).2 u r mid mkey now2).2
      = (recordResult st u r mid mkey now1).2 := by
  have hkE : k.isEmpty = false := by
    rcases hE : k.isEmpty
    · rfl
    · exact absurd ((String.isEmpty_iff k).mp hE) hne
  have hdup1 : isDuplicate st (some k) = false := by
    simp [isDuplicate, hkE, hmem]
  have h1 : recordResult st u r mid mkey now1 = (true, recordMutate st u r (some k) now1) := by
    simp [recordResult, hk, hdup1]
  have hproc : (recordMutate st u r (some k) now1).processed = k :: st.processed := by
    unfold recordMutate
    simp [hkE, insertSet, hmem]
  have hdup2 : isDuplicate (recordMutate st u r (some k) now1) (some k) = true := by
    simp [isDuplicate, hkE, hproc]
  have h2 : recordResult (recordMutate st u r (some k) now1) u r mid mkey now2
      = (false, recordMutate st u r (some k) now1) := by
    simp [recordResult, hk, hdup2]
  refine ⟨by rw [h1], ?_, by rw [h1, h2], by rw [h1, h2]⟩
  rw [h1]
  rw [hproc]
  exact List.mem_cons_self k st.processed

/-- C1 witness: the amended idempotence theorem applied at a concrete
fresh key `"m1"` on the empty store. -/
theorem recordResult_fresh_key_idempotent_witness :
    (recordResult demoStore demoUser demoWin none (some "m1") "t1").1 = true ∧
    "m1" ∈ (recordResult demoStore demoUser demoWin none (some "m1") "t1").2.processed ∧
    (recordResult (recordResult demoStore demoUser demoWin none (some "m1") "t1").2
      demoUser demoWin none (some "m1") "t2").1 = false ∧
    (recordResult (recordResult demoStore demoUser demoWin none (some "m1") "t1").2
      demoUser demoWin none (some "m1") "t2").2
      = (recordResult demoStore demoUser demoWin none (some "m1") "t1").2 :=
  recordResult_fresh_key_idempotent demoStore demoUser demoWin none (some "m1")
    "t1" "t2" "m1" rfl (by decide) (by decide)

/-- C1 counterexample: with the dedupe key `""` (a legal `message_key`
string), the duplicate check `if key and key in ...` and the set insert
`if key:` are both skipped, so the second call also returns `True` and
the user's games count reaches 2 — the original claim's universal
quantification over "every dedupe key" fails, since the second call is
required by the claim to be a state-preserving no-op reporting
"duplicate". -/
theorem recordResult_empty_key_double_counts :
    (recordResult demoStore demoUser demoWin none (some "") "t1").1 = true ∧
    (recordResult (recordResult demoStore demoUser demoWin none (some "") "t1").2
      demoUser demoWin none (some "") "t2").1 = true ∧
    (aggOf (recordResult (recordResult demoStore demoUser demoWin none (some "") "t1").2
      demoUser demoWin none (some "") "t2").2 demoUser).gamesPlayed = 2 := by
  decide

/-! ### Claim C8: corrupt snapshot handling in load -/

/-- C8 (amended): `load` is total on every decoded payload — no corrupt
snapshot raises — and resets as follows: malformed JSON (`none` here) or a
top-level document that is not a mapping resets both the aggregates map
and the dedup set to empty; but when only the `users` section is not a
keyed mapping, the source resets the aggregates map alone and still loads
the dedup set from a well-formed `processed_messages` list (empty only
when that list is absent or not a list).  (The amendment drops the
original claim's assertion that the dedup set is also reset in the
`users`-corruption case; see the counterexample.) -/
theorem load_reset_behaviour :
    ∀ (j : JVal) (fields : List (String × JVal)) (items : List JVal),
      loadModel none = ([], []) ∧
      (isJObj (some j) = false → loadModel (some j) = ([], [])) ∧
      (isJObj (jlookup ("users") fields) = false →
        (loadModel (some (JVal.jobj fields))).1 = []) ∧
      (jlookup ("processed_messages") fields = some (JVal.jarr items) →
        (loadModel (some (JVal.jobj fields))).2 = items.map pyStr) ∧
      (isJArr (jlookup ("processed_messages") fields) = false →
        (loadModel (some (JVal.jobj fields))).2 = []) := by
  intro j fields items
  refine ⟨rfl, ?_, ?_, ?_, ?_⟩
  · intro hj
    cases j <;> first | rfl | exact absurd hj (by simp [isJObj])
  · intro hu
    rcases hl : jlookup ("users") fields with _ | v
    · simp [loadModel, hl]
    · rw [hl] at hu
      rcases v with _ | b | n | s | items2 | f2
      · simp [loadModel, hl]
      · simp [loadModel, hl]
      · simp [loadModel, hl]
      · simp [loadModel, hl]
      · simp [loadModel, hl]
      · exact absurd hu (by simp [isJObj])
  · intro hp
    simp [loadModel, hp]
  · intro hp
    rcases hl : jlookup ("processed_messages") fields with _ | v
    · simp [loadModel, hl]
    · rw [hl] at hp
      rcases v with _ | b | n | s | items2 | f2
      · simp [loadModel, hl]
      · simp [loadModel, hl]
      · simp [loadModel, hl]
      · simp [loadModel, hl]
      · exact absurd hp (by simp [isJArr])
      · simp [loadModel, hl]

/-- C8 witness: the amended load behaviour at a concrete corrupt payload
whose `users` entry is a string and whose `processed_messages` is the
list `["k"]`. -/
theorem load_reset_behaviour_witness :
    (loadModel (some (JVal.jobj
      [("users", JVal.jstr "bad"), ("processed_messages", JVal.jarr [JVal.jstr "k"])]))).1
      = [] ∧
    (loadModel (some (JVal.jobj
      [("users", JVal.jstr "bad"), ("processed_messages", JVal.jarr [JVal.jstr "k"])]))).2
      = [JVal.jstr "k"].map pyStr :=
  ⟨(load_reset_behaviour JVal.jnull
      [("users", JVal.jstr "bad"), ("processed_messages", JVal.jarr [JVal.jstr "k"])]
      [JVal.jstr "k"]).2.2.1 rfl,
   (load_reset_behaviour JVal.jnull
      [("users", JVal.jstr "bad"), ("processed_messages", JVal.jarr [JVal.jstr "k"])]
      [JVal.jstr "k"]).2.2.2.1 rfl⟩

/-- C8 counterexample: a snapshot whose `users` section is not a mapping
but whose `processed_messages` is a valid list.  `load` resets the
aggregates map yet loads the dedup set `["k"]` from the file — the
original claim requires both to be reset to empty, but the dedup set is
non-empty (it contains `"k"`). -/
theorem load_users_corruption_keeps_processed :
    loadModel (some (JVal.jobj
      [("users", JVal.jstr "bad"), ("processed_messages", JVal.jarr [JVal.jstr "k"])]))
      = ([], ["k"]) ∧
    "k" ∈ (loadModel (some (JVal.jobj
      [("users", JVal.jstr "bad"), ("processed_messages", JVal.jarr [JVal.jstr "k"])]))).2 := by
  constructor
  · rfl
  · rw [show (loadModel (some (JVal.jobj
      [("users", JVal.jstr "bad"), ("processed_messages", JVal.jarr [JVal.jstr "k"])]))).2
      = ["k"] from rfl]
    exact List.mem_singleton.mpr rfl

end Wordler
